import Mathlib

/-!
A shallow embedding of the `DrawingEngine` class from `src/drawing.js` of the
canvas-tool repository, together with proofs of the specification claims about
tool state, stroke-width clamping, gesture handling, resizing, and the
undo/redo snapshot stacks.

Pixel buffers are modelled exactly (RGBA values at integer coordinates);
JavaScript numbers (event coordinates, stroke widths) are modelled as
rationals; the host backend's path rasterization (`ctx.stroke()`) is an
abstract parameter (`Rasterizer`), since its pixel output is a property of
the browser, not of this repository.  Console logging and DOM event listener
registration have no engine-state effect and are not modelled.
-/

/-- RGBA pixel value (red, green, blue, alpha components, one byte each). -/
abbrev Pixel := Nat × Nat × Nat × Nat

/-- Transparent black: the value every pixel of a canvas bitmap takes when the
bitmap is cleared or its dimensions are assigned, and the value produced by
reads outside the bitmap. -/
def transparentBlack : Pixel := (0, 0, 0, 0)

/-- Opaque white, the RGBA value written by a fill whose fill style is the CSS
color string `"#ffffff"` used by `_initializeCanvas` and `clear`. -/
def whiteFill : Pixel := (255, 255, 255, 255)

/-- A raster bitmap: models the canvas pixel buffer, the temp canvas, and the
`ImageData` snapshots stored on the history stacks.  `pix` is only meaningful
at coordinates below `width` and `height`. -/
structure Img where
  width : Nat
  height : Nat
  pix : Nat → Nat → Pixel

/-- A bitmap whose every pixel is transparent black: the state of a canvas
bitmap right after its `width`/`height` attributes are assigned. -/
def blank (w h : Nat) : Img :=
  { width := w, height := h, pix := fun _ _ => transparentBlack }

/-- Assigning `canvas.width` and `canvas.height` resets the bitmap to
transparent black at the new dimensions. -/
def setCanvasSize (_c : Img) (w h : Nat) : Img := blank w h

/-- `ctx.fillRect(rx, ry, rw, rh)` with a fill style whose pixel value is
`p`: paints every bitmap pixel inside the rectangle. -/
def fillRect (c : Img) (rx ry rw rh : Nat) (p : Pixel) : Img :=
  { c with pix := fun x y =>
      if rx ≤ x ∧ x < rx + rw ∧ ry ≤ y ∧ y < ry + rh ∧ x < c.width ∧ y < c.height
      then p else c.pix x y }

/-- `ctx.clearRect(rx, ry, rw, rh)`: resets every bitmap pixel inside the
rectangle to transparent black. -/
def clearRect (c : Img) (rx ry rw rh : Nat) : Img :=
  { c with pix := fun x y =>
      if rx ≤ x ∧ x < rx + rw ∧ ry ≤ y ∧ y < ry + rh ∧ x < c.width ∧ y < c.height
      then transparentBlack else c.pix x y }

/-- `ctx.getImageData(0, 0, w, h)` over the whole canvas: a snapshot of the
bitmap; out-of-bounds reads yield transparent black. -/
def getImageData (c : Img) : Img :=
  { width := c.width, height := c.height,
    pix := fun x y => if x < c.width ∧ y < c.height then c.pix x y else transparentBlack }

/-- `ctx.putImageData(data, 0, 0)`: writes the snapshot's raw pixels (no
compositing) at the origin, clipped to both the snapshot and the canvas. -/
def putImageData (c data : Img) : Img :=
  { c with pix := fun x y =>
      if x < data.width ∧ y < data.height ∧ x < c.width ∧ y < c.height
      then data.pix x y else c.pix x y }

/-- `ctx.drawImage(src, 0, 0)`.  In the engine every `drawImage` call
immediately follows a full-canvas `clearRect` of the destination, and
source-over compositing onto transparent black yields the source pixel
exactly, so that case is modelled: source pixels are copied where both
bitmaps are defined, the rest of the destination is kept. -/
def drawImage (dst src : Img) : Img :=
  { dst with pix := fun x y =>
      if x < src.width ∧ y < src.height ∧ x < dst.width ∧ y < dst.height
      then src.pix x y else dst.pix x y }

/-- Pixel-for-pixel agreement of two bitmaps: same dimensions and the same
value at every in-bounds coordinate. -/
def Img.samePixels (a b : Img) : Prop :=
  a.width = b.width ∧ a.height = b.height ∧
  ∀ x y, x < a.width → y < a.height → a.pix x y = b.pix x y

/-- Path commands recorded on the 2d context's current path by the engine:
`moveTo`, `lineTo`, `rect`, and the full-circle `arc` emitted by the circle
tool.  `circleArc` stores the squared radius, the value whose square root the
source passes to `ctx.arc` (kept squared so coordinates stay rational). -/
inductive PathCmd where
  | moveTo (x y : ℚ)
  | lineTo (x y : ℚ)
  | rect (x y w h : ℚ)
  | circleArc (cx cy radiusSq : ℚ)

/-- The host backend's `ctx.stroke()`: rasterizes the current path onto a
bitmap using the context's stroke style and line width (line cap and join are
always `"round"` in this engine).  Its pixel output is browser behavior,
outside this repository, so it is kept abstract. -/
structure Rasterizer where
  stroke : Img → List PathCmd → String → ℚ → Img

/-- The full `DrawingEngine` state: the canvas bitmap together with the 2d
context's style and path state, the drawing state fields, both history
stacks, and the temp canvas used for shape preview. -/
structure Engine where
  surface : Img
  currentTool : String
  currentColor : String
  strokeWidth : ℚ
  isDrawing : Bool
  startX : ℚ
  startY : ℚ
  lastX : ℚ
  lastY : ℚ
  undoStack : List Img
  redoStack : List Img
  maxUndoSteps : Nat
  tempCanvas : Img
  path : List PathCmd
  ctxStrokeStyle : String
  ctxLineWidth : ℚ
  ctxLineCap : String
  ctxLineJoin : String
  ctxFillStyle : String

/-- `_getCoordinates`: maps client event coordinates to canvas-buffer
coordinates (subtract the bounding rectangle's origin, then scale per axis by
buffer dimension over layout dimension). -/
def getCoordinates (canvasWidth canvasHeight : Nat)
    (rectLeft rectTop rectWidth rectHeight clientX clientY : ℚ) : ℚ × ℚ :=
  ((clientX - rectLeft) * ((canvasWidth : ℚ) / rectWidth),
   (clientY - rectTop) * ((canvasHeight : ℚ) / rectHeight))

/-- `_applyContextSettings`: reapplies line cap, line join, stroke style and
line width to the context. -/
def applyContextSettings (e : Engine) : Engine :=
  { e with ctxLineCap := "round", ctxLineJoin := "round",
           ctxStrokeStyle := e.currentColor, ctxLineWidth := e.strokeWidth }

/-- `_saveState`: pushes a snapshot of the canvas onto the undo stack, shifts
off the oldest snapshot if the bound is exceeded, and clears the redo
stack. -/
def saveState (e : Engine) : Engine :=
  { e with
    undoStack :=
      if e.maxUndoSteps < (e.undoStack ++ [getImageData e.surface]).length
      then (e.undoStack ++ [getImageData e.surface]).drop 1
      else e.undoStack ++ [getImageData e.surface],
    redoStack := [] }

/-- `_restoreState(imageData)`: writes the snapshot back onto the canvas and
reapplies the context settings. -/
def restoreState (e : Engine) (imageData : Img) : Engine :=
  applyContextSettings { e with surface := putImageData e.surface imageData }

/-- The constructor `new DrawingEngine(canvas)` followed by
`_initializeCanvas` and the initial `_saveState`, for a host layout of
`w` by `h` pixels: sizes both bitmaps, sets the default context
properties, fills the canvas with the white background, and pushes the
initial snapshot. -/
def init (w h : Nat) : Engine :=
  saveState
    { surface := fillRect (blank w h) 0 0 w h whiteFill,
      currentTool := "freehand",
      currentColor := "#000000",
      strokeWidth := 2,
      isDrawing := false,
      startX := 0, startY := 0, lastX := 0, lastY := 0,
      undoStack := [], redoStack := [],
      maxUndoSteps := 50,
      tempCanvas := blank w h,
      path := [],
      ctxStrokeStyle := "#000000",
      ctxLineWidth := 2,
      ctxLineCap := "round",
      ctxLineJoin := "round",
      ctxFillStyle := "#ffffff" }

/-- The recognized tool identifiers (`validTools` in `setTool`). -/
def validTools : List String := ["freehand", "rectangle", "circle", "line"]

/-- `setTool(tool)`: stores a recognized tool identifier; an unrecognized
value only logs a warning and changes nothing. -/
def setTool (e : Engine) (tool : String) : Engine :=
  if tool ∈ validTools then { e with currentTool := tool } else e

/-- `setColor(color)`: stores the color and applies it as the context's
stroke style. -/
def setColor (e : Engine) (color : String) : Engine :=
  { e with currentColor := color, ctxStrokeStyle := color }

/-- `setStrokeWidth(width)`: stores `Math.max(1, Math.min(width, 50))` and
applies it as the context's line width. -/
def setStrokeWidth (e : Engine) (width : ℚ) : Engine :=
  { e with strokeWidth := max 1 (min width 50),
           ctxLineWidth := max 1 (min width 50) }

/-- `_drawShapePath(x1, y1, x2, y2)`: the path commands the switch statement
adds to the current path for the active tool (no case matches `freehand`, so
it adds nothing). -/
def shapePath (tool : String) (x1 y1 x2 y2 : ℚ) : List PathCmd :=
  if tool = "rectangle" then [PathCmd.rect x1 y1 (x2 - x1) (y2 - y1)]
  else if tool = "circle" then
    [PathCmd.circleArc x1 y1 ((x2 - x1) ^ 2 + (y2 - y1) ^ 2)]
  else if tool = "line" then [PathCmd.moveTo x1 y1, PathCmd.lineTo x2 y2]
  else []

/-- `_drawFreehand(x, y)`: `lineTo` extends the open path, `stroke` paints
it onto the canvas. -/
def drawFreehand (R : Rasterizer) (e : Engine) (x y : ℚ) : Engine :=
  { e with path := e.path ++ [PathCmd.lineTo x y],
           surface := R.stroke e.surface (e.path ++ [PathCmd.lineTo x y])
             e.ctxStrokeStyle e.ctxLineWidth }

/-- `_drawShapePreview(x, y)`: restores the canvas from the temp canvas
(full `clearRect` then `drawImage`), then begins a fresh path, adds the shape
from the gesture start to the given point, and strokes it. -/
def drawShapePreview (R : Rasterizer) (e : Engine) (x y : ℚ) : Engine :=
  { e with
    surface := R.stroke
      (drawImage (clearRect e.surface 0 0 e.surface.width e.surface.height) e.tempCanvas)
      (shapePath e.currentTool e.startX e.startY x y)
      e.ctxStrokeStyle e.ctxLineWidth,
    path := shapePath e.currentTool e.startX e.startY x y }

/-- `_drawShape(x, y)`: identical body to `_drawShapePreview`, used on
gesture end. -/
def drawShape (R : Rasterizer) (e : Engine) (x y : ℚ) : Engine :=
  { e with
    surface := R.stroke
      (drawImage (clearRect e.surface 0 0 e.surface.width e.surface.height) e.tempCanvas)
      (shapePath e.currentTool e.startX e.startY x y)
      e.ctxStrokeStyle e.ctxLineWidth,
    path := shapePath e.currentTool e.startX e.startY x y }

/-- `_handleStart(e)` with already-mapped event coordinates: begins a
gesture, records start and last coordinates, and either opens a fresh
freehand path or snapshots the canvas into the temp canvas (full `clearRect`
then `drawImage`) as the shape-preview rollback reference. -/
def handleStart (e : Engine) (x y : ℚ) : Engine :=
  if e.currentTool = "freehand" then
    { e with isDrawing := true, startX := x, startY := y, lastX := x, lastY := y,
             path := [PathCmd.moveTo x y] }
  else
    { e with isDrawing := true, startX := x, startY := y, lastX := x, lastY := y,
             tempCanvas :=
               drawImage (clearRect e.tempCanvas 0 0 e.tempCanvas.width e.tempCanvas.height)
                 e.surface }

/-- `_handleMove(e)` with already-mapped event coordinates: ignored while not
drawing; otherwise paints (freehand) or redraws the preview (shape tools),
then records the last coordinates. -/
def handleMove (R : Rasterizer) (e : Engine) (x y : ℚ) : Engine :=
  if e.isDrawing = false then e
  else
    if e.currentTool = "freehand" then
      { drawFreehand R e x y with lastX := x, lastY := y }
    else
      { drawShapePreview R e x y with lastX := x, lastY := y }

/-- `_handleEnd(e)` with already-mapped event coordinates: ignored while not
drawing; otherwise draws the final shape for shape tools, leaves the drawing
state, and commits a snapshot via `_saveState`. -/
def handleEnd (R : Rasterizer) (e : Engine) (x y : ℚ) : Engine :=
  if e.isDrawing = false then e
  else
    if e.currentTool = "freehand" then saveState { e with isDrawing := false }
    else saveState { drawShape R e x y with isDrawing := false }

/-- `undo()`: returns `false` and changes nothing when the undo stack has at
most its initial entry; otherwise pops the top onto the redo stack, restores
the new top, and returns `true`. -/
def undo (e : Engine) : Engine × Bool :=
  if e.undoStack.length ≤ 1 then (e, false)
  else
    (restoreState
      { e with undoStack := e.undoStack.dropLast,
               redoStack := e.redoStack ++ [e.undoStack.getLast?.getD e.surface] }
      (e.undoStack.dropLast.getLast?.getD e.surface),
     true)

/-- `redo()`: returns `false` and changes nothing when the redo stack is
empty; otherwise pops the redo top back onto the undo stack, restores it, and
returns `true`. -/
def redo (e : Engine) : Engine × Bool :=
  if e.redoStack.length = 0 then (e, false)
  else
    (restoreState
      { e with redoStack := e.redoStack.dropLast,
               undoStack := e.undoStack ++ [e.redoStack.getLast?.getD e.surface] }
      (e.redoStack.getLast?.getD e.surface),
     true)

/-- The state transformation of `undo()` (its returned boolean dropped). -/
def undoStep (e : Engine) : Engine := (undo e).1

/-- The state transformation of `redo()` (its returned boolean dropped). -/
def redoStep (e : Engine) : Engine := (redo e).1

/-- `clear()`: fills the canvas with the white background, reapplies the
context settings, and commits a snapshot. -/
def clear (e : Engine) : Engine :=
  saveState (applyContextSettings
    { e with surface := fillRect e.surface 0 0 e.surface.width e.surface.height whiteFill,
             ctxFillStyle := "#ffffff" })

/-- `resize(width, height)`: captures the canvas content, resets both
bitmaps to the new dimensions, restores the captured content at the origin,
and reapplies the context settings. -/
def resize (e : Engine) (w h : Nat) : Engine :=
  applyContextSettings
    { e with surface := putImageData (setCanvasSize e.surface w h) (getImageData e.surface),
             tempCanvas := setCanvasSize e.tempCanvas w h }

/-- `_handleResize()`: same body as `resize`, with the dimensions taken from
the host layout (`offsetWidth`/`offsetHeight`, passed here as arguments). -/
def handleResize (e : Engine) (offsetWidth offsetHeight : Nat) : Engine :=
  applyContextSettings
    { e with surface := putImageData (setCanvasSize e.surface offsetWidth offsetHeight)
               (getImageData e.surface),
             tempCanvas := setCanvasSize e.tempCanvas offsetWidth offsetHeight }

/-- `destroy()`: removes the event listeners (outside this model) and clears
both history stacks. -/
def destroy (e : Engine) : Engine :=
  { e with undoStack := [], redoStack := [] }

/-- `exportImage(format)`: a pure read of the canvas; no engine state is
touched. -/
def exportImage (e : Engine) : Engine := e

/-- One public operation on a live engine: a gesture event with
already-mapped coordinates, a setter, undo, redo, clear, a resize, an export,
or teardown. -/
inductive Op where
  | startEv (x y : ℚ)
  | moveEv (x y : ℚ)
  | endEv (x y : ℚ)
  | setToolOp (tool : String)
  | setColorOp (color : String)
  | setStrokeWidthOp (width : ℚ)
  | undoOp
  | redoOp
  | clearOp
  | resizeOp (w h : Nat)
  | exportOp
  | destroyOp

/-- Interpretation of one public operation. -/
def step (R : Rasterizer) (op : Op) (e : Engine) : Engine :=
  match op with
  | Op.startEv x y => handleStart e x y
  | Op.moveEv x y => handleMove R e x y
  | Op.endEv x y => handleEnd R e x y
  | Op.setToolOp tool => setTool e tool
  | Op.setColorOp color => setColor e color
  | Op.setStrokeWidthOp width => setStrokeWidth e width
  | Op.undoOp => undoStep e
  | Op.redoOp => redoStep e
  | Op.clearOp => clear e
  | Op.resizeOp w h => resize e w h
  | Op.exportOp => exportImage e
  | Op.destroyOp => destroy e

/-- Runs a sequence of public operations in delivery order. -/
def run (R : Rasterizer) (ops : List Op) (e : Engine) : Engine :=
  ops.foldl (fun s op => step R op s) e

/-- A state the engine can reach: some initial layout followed by some
sequence of public operations under the backend `R`. -/
def Reachable (R : Rasterizer) (e : Engine) : Prop :=
  ∃ w h ops, e = run R ops (init w h)

/-- A state the engine can reach before teardown: as `Reachable`, with no
`destroy()` call in the operation sequence. -/
def LiveReachable (R : Rasterizer) (e : Engine) : Prop :=
  ∃ w h ops, Op.destroyOp ∉ ops ∧ e = run R ops (init w h)

/-- One committed action: a full gesture (start, moves, end, committed by
`_handleEnd`) or a `clear()` call. -/
inductive CommittedAction where
  | gesture (startX startY : ℚ) (moves : List (ℚ × ℚ)) (endX endY : ℚ)
  | clearAction

/-- Runs one committed action. -/
def runCommitted (R : Rasterizer) (e : Engine) : CommittedAction → Engine
  | CommittedAction.gesture sx sy moves ex ey =>
      handleEnd R (moves.foldl (fun s c => handleMove R s c.1 c.2) (handleStart e sx sy)) ex ey
  | CommittedAction.clearAction => clear e

/-- Runs a sequence of committed actions. -/
def commitAll (R : Rasterizer) (acts : List CommittedAction) (e : Engine) : Engine :=
  acts.foldl (runCommitted R) e

/-- A trivial backend whose `stroke` leaves the bitmap unchanged; used to
instantiate theorems at concrete inputs. -/
def idRaster : Rasterizer :=
  { stroke := fun img _ _ _ => img }

/-- A backend whose `stroke` paints the whole (1 by 1) bitmap opaque black;
used to build concrete counterexample runs with visible strokes. -/
def blackRaster : Rasterizer :=
  { stroke := fun _ _ _ _ => { width := 1, height := 1, pix := fun _ _ => (0, 0, 0, 255) } }

/-- The operations of `n` rectangle gestures from (0,0) to (1,1). -/
def rectGestures : Nat → List Op
  | 0 => []
  | n + 1 => Op.startEv 0 0 :: Op.endEv 1 1 :: rectGestures n

/-! ## Basic characterizations of single operations -/

/-- `undo()` on a stack with at most one entry changes nothing. -/
lemma undoStep_of_le (e : Engine) (h : e.undoStack.length ≤ 1) : undoStep e = e := by
  simp [undoStep, undo, h]

/-- `redo()` on an empty redo stack changes nothing. -/
lemma redoStep_of_empty (e : Engine) (h : e.redoStack.length = 0) : redoStep e = e := by
  simp [redoStep, redo, h]

/-- Explicit form of a successful `undo()`. -/
lemma undoStep_of_lt (e : Engine) (h : 1 < e.undoStack.length) :
    undoStep e =
      { e with
        undoStack := e.undoStack.dropLast,
        redoStack := e.redoStack ++ [e.undoStack.getLast?.getD e.surface],
        surface := putImageData e.surface (e.undoStack.dropLast.getLast?.getD e.surface),
        ctxLineCap := "round", ctxLineJoin := "round",
        ctxStrokeStyle := e.currentColor, ctxLineWidth := e.strokeWidth } := by
  simp only [undoStep, undo]
  rw [if_neg (by omega)]
  rfl

/-- Explicit form of a successful `redo()`. -/
lemma redoStep_of_pos (e : Engine) (h : 0 < e.redoStack.length) :
    redoStep e =
      { e with
        undoStack := e.undoStack ++ [e.redoStack.getLast?.getD e.surface],
        redoStack := e.redoStack.dropLast,
        surface := putImageData e.surface (e.redoStack.getLast?.getD e.surface),
        ctxLineCap := "round", ctxLineJoin := "round",
        ctxStrokeStyle := e.currentColor, ctxLineWidth := e.strokeWidth } := by
  simp only [redoStep, redo]
  rw [if_neg (by omega)]
  rfl

/-- `_handleStart` touches neither history stack, keeps the bound and the
context style settings, and sets the drawing flag. -/
lemma handleStart_facts (e : Engine) (x y : ℚ) :
    (handleStart e x y).undoStack = e.undoStack ∧
    (handleStart e x y).redoStack = e.redoStack ∧
    (handleStart e x y).maxUndoSteps = e.maxUndoSteps ∧
    (handleStart e x y).isDrawing = true := by
  unfold handleStart
  split <;> exact ⟨rfl, rfl, rfl, rfl⟩

/-- `_handleMove` touches neither history stack and keeps the bound and the
drawing flag. -/
lemma handleMove_facts (R : Rasterizer) (e : Engine) (x y : ℚ) :
    (handleMove R e x y).undoStack = e.undoStack ∧
    (handleMove R e x y).redoStack = e.redoStack ∧
    (handleMove R e x y).maxUndoSteps = e.maxUndoSteps ∧
    (handleMove R e x y).isDrawing = e.isDrawing := by
  unfold handleMove
  split
  · exact ⟨rfl, rfl, rfl, rfl⟩
  · unfold drawFreehand drawShapePreview
    split <;> exact ⟨rfl, rfl, rfl, rfl⟩

/-- A fold of `_handleMove` events keeps the drawing flag and the bound. -/
lemma foldMoves_facts (R : Rasterizer) :
    ∀ (ms : List (ℚ × ℚ)) (s : Engine),
      (ms.foldl (fun a c => handleMove R a c.1 c.2) s).isDrawing = s.isDrawing ∧
      (ms.foldl (fun a c => handleMove R a c.1 c.2) s).maxUndoSteps = s.maxUndoSteps := by
  intro ms
  induction ms with
  | nil => intro s; exact ⟨rfl, rfl⟩
  | cons c ms ih =>
    intro s
    have h := handleMove_facts R s c.1 c.2
    have h2 := ih (handleMove R s c.1 c.2)
    simp only [List.foldl_cons]
    exact ⟨h2.1.trans h.2.2.2, h2.2.trans h.2.2.1⟩

/-- `_saveState` empties the redo stack, keeps the surface and the bound, and
leaves a nonempty stack whose top is the snapshot of the current surface
whenever the bound is at least one. -/
lemma saveState_facts (e : Engine) :
    (saveState e).redoStack = [] ∧
    (saveState e).surface = e.surface ∧
    (saveState e).maxUndoSteps = e.maxUndoSteps ∧
    (1 ≤ e.maxUndoSteps →
      1 ≤ (saveState e).undoStack.length ∧
      (saveState e).undoStack.getLast? = some (getImageData e.surface)) := by
  refine ⟨rfl, rfl, rfl, fun hm => ?_⟩
  unfold saveState
  simp only
  split
  · rename_i hcond
    simp only [List.length_append, List.length_cons, List.length_nil] at hcond
    have hL : 1 ≤ e.undoStack.length := by omega
    constructor
    · simp [List.length_drop]
      omega
    · rw [List.drop_append_of_le_length hL, List.getLast?_concat]
  · exact ⟨by simp, List.getLast?_concat _⟩

/-- The state transformation of one committed action: the redo stack is
emptied, the undo stack ends in the snapshot of the resulting surface and is
nonempty, and the bound is kept. -/
lemma runCommitted_facts (R : Rasterizer) (e : Engine) (a : CommittedAction)
    (hm : 1 ≤ e.maxUndoSteps) :
    (runCommitted R e a).redoStack = [] ∧
    1 ≤ (runCommitted R e a).undoStack.length ∧
    (runCommitted R e a).undoStack.getLast?
      = some (getImageData (runCommitted R e a).surface) ∧
    (runCommitted R e a).maxUndoSteps = e.maxUndoSteps := by
  cases a with
  | gesture sx sy moves ex ey =>
    simp only [runCommitted]
    set s1 := (moves.foldl (fun a c => handleMove R a c.1 c.2) (handleStart e sx sy)) with hs1
    have hdraw : s1.isDrawing = true := by
      have h1 := (foldMoves_facts R moves (handleStart e sx sy)).1
      rw [hs1, h1, (handleStart_facts e sx sy).2.2.2]
    have hmax : s1.maxUndoSteps = e.maxUndoSteps := by
      have h1 := (foldMoves_facts R moves (handleStart e sx sy)).2
      rw [hs1, h1, (handleStart_facts e sx sy).2.2.1]
    unfold handleEnd
    rw [hdraw]
    simp only [Bool.true_eq_false, if_false]
    split
    · have hsf := saveState_facts { s1 with isDrawing := false }
      refine ⟨hsf.1, (hsf.2.2.2 (by simpa [hmax] using hm)).1, ?_, by simpa [hmax] using hsf.2.2.1⟩
      rw [(hsf.2.2.2 (by simpa [hmax] using hm)).2, hsf.2.1]
    · have hmax2 : (drawShape R s1 ex ey).maxUndoSteps = e.maxUndoSteps := by
        simp [drawShape, hmax]
      have hm2 : 1 ≤ ({ drawShape R s1 ex ey with isDrawing := false } : Engine).maxUndoSteps := by
        simpa [hmax2] using hm
      have hsf := saveState_facts { drawShape R s1 ex ey with isDrawing := false }
      refine ⟨hsf.1, (hsf.2.2.2 hm2).1, ?_, by simpa [hmax2] using hsf.2.2.1⟩
      rw [(hsf.2.2.2 hm2).2, hsf.2.1]
  | clearAction =>
    simp only [runCommitted, clear]
    set e1 := applyContextSettings
      { e with surface := fillRect e.surface 0 0 e.surface.width e.surface.height whiteFill,
               ctxFillStyle := "#ffffff" } with he1
    have hm1 : 1 ≤ e1.maxUndoSteps := by simpa [he1, applyContextSettings] using hm
    have hsf := saveState_facts e1
    refine ⟨hsf.1, (hsf.2.2.2 hm1).1, ?_, by simpa [he1, applyContextSettings] using hsf.2.2.1⟩
    rw [(hsf.2.2.2 hm1).2, hsf.2.1]

/-! ## Claims about single operations -/

/-- C3: `undo()` returns `false` and leaves the surface pixel buffer and both
history stacks unchanged (indeed the entire engine state) whenever the undo
stack has at most one entry — in particular on a freshly initialized surface;
otherwise it pops the top of the undo stack, pushes that snapshot onto the
redo stack, restores the surface to the new top of the undo stack, and
returns `true`.  As a total Lean function it never throws. -/
theorem undo_floor_and_pop :
    (∀ e : Engine, e.undoStack.length ≤ 1 → undo e = (e, false)) ∧
    (∀ w h : Nat, undo (init w h) = (init w h, false)) ∧
    (∀ e : Engine, 1 < e.undoStack.length →
      (undo e).2 = true ∧
      (undo e).1.undoStack = e.undoStack.dropLast ∧
      (undo e).1.redoStack = e.redoStack ++ [e.undoStack.getLast?.getD e.surface] ∧
      (undo e).1.surface
        = putImageData e.surface (e.undoStack.dropLast.getLast?.getD e.surface)) := by
  refine ⟨fun e h => ?_, fun w h => ?_, fun e h => ?_⟩
  · simp [undo, h]
  · rfl
  · rw [show undo e = ((undoStep e), true) from ?_]
    · rw [undoStep_of_lt e h]
      exact ⟨rfl, rfl, rfl, rfl⟩
    · rw [undoStep_of_lt e h]
      simp only [undo]
      rw [if_neg (by omega)]
      rfl

/-- Witness for C3 at concrete states: the fresh 8 by 6 surface (one stack
entry, failing undo) and the same surface after one `clear()` (two entries,
succeeding undo). -/
theorem undo_floor_and_pop_witness :
    undo (init 8 6) = (init 8 6, false) ∧ (undo (clear (init 8 6))).2 = true := by
  refine ⟨undo_floor_and_pop.2.1 8 6, (undo_floor_and_pop.2.2 (clear (init 8 6)) (by decide)).1⟩

/-- C4: every committed action (gesture end or `clear()`) commits through
`_saveState`, which empties the redo stack; consequently after any committed
action — in particular one performed after one or more `undo()` calls — a
subsequent `redo()` returns `false` and changes nothing. -/
theorem commit_clears_redo :
    (∀ e : Engine, (saveState e).redoStack = []) ∧
    (∀ (R : Rasterizer) (e : Engine) (a : CommittedAction), (runCommitted R e a).redoStack = []) ∧
    (∀ e : Engine, e.redoStack = [] → redo e = (e, false)) ∧
    (∀ (R : Rasterizer) (e : Engine) (a : CommittedAction) (n : Nat),
      redo (runCommitted R (undoStep^[n] e) a) = (runCommitted R (undoStep^[n] e) a, false)) := by
  have hsave : ∀ e : Engine, (saveState e).redoStack = [] := fun e => rfl
  have hcommit : ∀ (R : Rasterizer) (e : Engine) (a : CommittedAction),
      (runCommitted R e a).redoStack = [] := by
    intro R e a
    cases a with
    | gesture sx sy moves ex ey =>
      simp only [runCommitted]
      unfold handleEnd
      split
      · rename_i hfalse
        have hdraw := (foldMoves_facts R moves (handleStart e sx sy)).1
        rw [(handleStart_facts e sx sy).2.2.2] at hdraw
        rw [hdraw] at hfalse
        cases hfalse
      · split <;> exact rfl
    | clearAction => rfl
  have hredo : ∀ e : Engine, e.redoStack = [] → redo e = (e, false) := by
    intro e h
    simp [redo, h]
  exact ⟨hsave, hcommit, hredo, fun R e a n => hredo _ (hcommit R _ a)⟩

/-- Witness for C4 at a concrete state: after an undo and a `clear()` on the
fresh 5 by 5 surface, `redo()` fails and changes nothing. -/
theorem commit_clears_redo_witness :
    redo (runCommitted idRaster (undoStep^[1] (init 5 5)) CommittedAction.clearAction)
      = (runCommitted idRaster (undoStep^[1] (init 5 5)) CommittedAction.clearAction, false) :=
  commit_clears_redo.2.2.2 idRaster (init 5 5) CommittedAction.clearAction 1

/-- C5 counterexample: the numeric input 5/2 is stored as 5/2 itself, a value
inside [1, 50] that is not an integer, refuting the claim that every stored
stroke width is an integer. -/
theorem setStrokeWidth_fractional_counterexample :
    (setStrokeWidth (init 4 4) (5 / 2)).strokeWidth = 5 / 2 ∧
    ¬ ∃ n : ℤ, (setStrokeWidth (init 4 4) (5 / 2)).strokeWidth = (n : ℚ) := by
  have hval : (setStrokeWidth (init 4 4) (5 / 2)).strokeWidth = (5 / 2 : ℚ) := by
    show max 1 (min (5 / 2 : ℚ) 50) = 5 / 2
    rw [min_eq_left (by norm_num), max_eq_right (by norm_num)]
  refine ⟨hval, ?_⟩
  rintro ⟨n, hn⟩
  rw [hval] at hn
  have h2 : (5 : ℚ) = 2 * (n : ℚ) := by linarith
  have h3 : (5 : ℤ) = 2 * n := by exact_mod_cast h2
  omega

/-- C5 (amended): `setStrokeWidth(width)` stores the clamp of the input to
the closed range [1, 50] — inputs below 1 become 1, inputs above 50 become
50, in-range inputs are stored unchanged — and applies the same value as the
context line width, silently, never rejecting.  The stored value is an
integer whenever the input is an integer, but a fractional in-range input is
stored as given (see the counterexample). -/
theorem setStrokeWidth_clamps (e : Engine) (w : ℚ) :
    (setStrokeWidth e w).strokeWidth = max 1 (min w 50) ∧
    1 ≤ (setStrokeWidth e w).strokeWidth ∧
    (setStrokeWidth e w).strokeWidth ≤ 50 ∧
    (w < 1 → (setStrokeWidth e w).strokeWidth = 1) ∧
    (50 < w → (setStrokeWidth e w).strokeWidth = 50) ∧
    (1 ≤ w → w ≤ 50 → (setStrokeWidth e w).strokeWidth = w) ∧
    (w.den = 1 → ((setStrokeWidth e w).strokeWidth).den = 1) ∧
    (setStrokeWidth e w).ctxLineWidth = (setStrokeWidth e w).strokeWidth := by
  have hval : (setStrokeWidth e w).strokeWidth = max 1 (min w 50) := rfl
  refine ⟨hval, ?_, ?_, ?_, ?_, ?_, ?_, rfl⟩
  · rw [hval]; exact le_max_left 1 (min w 50)
  · rw [hval]
    exact max_le (by norm_num) (min_le_right w 50)
  · intro h
    rw [hval, min_eq_left (le_trans h.le (by norm_num)), max_eq_left h.le]
  · intro h
    rw [hval, min_eq_right h.le]
    norm_num
  · intro h1 h2
    rw [hval, min_eq_left h2, max_eq_right h1]
  · intro hden
    rw [hval]
    rcases max_cases 1 (min w 50) with ⟨hm, _⟩ | ⟨hm, _⟩ <;>
      rcases min_cases w 50 with ⟨hn, _⟩ | ⟨hn, _⟩ <;> rw [hm] <;> simp [hn, hden]

/-- Witness for C5 (amended) at concrete inputs: width 0 is clamped to 1
and width 999 is clamped to 50. -/
theorem setStrokeWidth_clamps_witness :
    (setStrokeWidth (init 4 4) 0).strokeWidth = 1 ∧
    (setStrokeWidth (init 4 4) 999).strokeWidth = 50 := by
  exact ⟨(setStrokeWidth_clamps (init 4 4) 0).2.2.2.1 (by norm_num),
         (setStrokeWidth_clamps (init 4 4) 999).2.2.2.2.1 (by norm_num)⟩

/-- C6: `setTool` stores any of the four recognized tool identifiers as the
current tool; for any other input it leaves the whole engine state —
`currentTool` included — unchanged and does not throw (the source only logs
a warning). -/
theorem setTool_validation (e : Engine) (tool : String) :
    (tool ∈ validTools → setTool e tool = { e with currentTool := tool }) ∧
    (tool ∉ validTools → setTool e tool = e) := by
  constructor <;> intro h <;> simp [setTool, h]

/-- Witness for C6 at concrete inputs: the unrecognized identifier
`"hexagon"` changes nothing, while `"rectangle"` is stored. -/
theorem setTool_validation_witness :
    setTool (init 2 2) "hexagon" = init 2 2 ∧
    (setTool (init 2 2) "rectangle").currentTool = "rectangle" := by
  constructor
  · exact (setTool_validation (init 2 2) "hexagon").2 (by decide)
  · rw [(setTool_validation (init 2 2) "rectangle").1 (by decide)]

/-- C9: a Move or End event delivered while no gesture is active (the
`isDrawing` flag is down) is a no-op: the entire engine state — surface
pixels and both history stacks included — is left unchanged. -/
theorem idle_move_end_noop (R : Rasterizer) (e : Engine) (x y : ℚ)
    (h : e.isDrawing = false) :
    handleMove R e x y = e ∧ handleEnd R e x y = e := by
  constructor <;> simp [handleMove, handleEnd, h]

/-- Witness for C9 at a concrete state: the fresh 2 by 2 surface is idle, and
stray Move and End events at (3, 4) leave it untouched. -/
theorem idle_move_end_noop_witness :
    handleMove idRaster (init 2 2) 3 4 = init 2 2 ∧ handleEnd idRaster (init 2 2) 3 4 = init 2 2 :=
  idle_move_end_noop idRaster (init 2 2) 3 4 rfl

/-- C10: a Start event received while a gesture is already active is not
ignored: it keeps the drawing flag set and overwrites the gesture's start and
last coordinates with the new event's coordinates; for shape tools it
re-captures the scratch rollback snapshot from the current surface content
(which may already contain a preview), while for freehand it restarts the
open path; it pushes nothing onto either history stack, neither committing
nor discarding the previous gesture. -/
theorem start_while_active_restarts (e : Engine) (x y : ℚ) (h : e.isDrawing = true) :
    (e.currentTool = "freehand" →
      handleStart e x y = { e with isDrawing := true, startX := x, startY := y,
                                   lastX := x, lastY := y, path := [PathCmd.moveTo x y] }) ∧
    (e.currentTool ≠ "freehand" →
      handleStart e x y = { e with isDrawing := true, startX := x, startY := y,
                                   lastX := x, lastY := y,
                                   tempCanvas := drawImage
                                     (clearRect e.tempCanvas 0 0 e.tempCanvas.width
                                       e.tempCanvas.height) e.surface } ∧
      ∀ px py, px < e.surface.width → py < e.surface.height →
        px < e.tempCanvas.width → py < e.tempCanvas.height →
        (handleStart e x y).tempCanvas.pix px py = e.surface.pix px py) ∧
    (handleStart e x y).undoStack = e.undoStack ∧
    (handleStart e x y).redoStack = e.redoStack := by
  refine ⟨fun ht => ?_, fun ht => ⟨?_, ?_⟩, (handleStart_facts e x y).1, (handleStart_facts e x y).2.1⟩
  · simp [handleStart, ht]
  · simp [handleStart, ht]
  · intro px py h1 h2 h3 h4
    simp only [handleStart, if_neg ht, drawImage, clearRect]
    simp [h1, h2, h3, h4]

/-- Witness for C10 at a concrete state: a second Start at (5, 6) during an
active rectangle gesture on a 2 by 2 surface re-captures the white surface
into the scratch buffer and pushes nothing. -/
theorem start_while_active_restarts_witness :
    ((handleStart (handleStart (setTool (init 2 2) "rectangle") 0 0) 5 6).tempCanvas.pix 0 0
        = (handleStart (setTool (init 2 2) "rectangle") 0 0).surface.pix 0 0) ∧
    (handleStart (handleStart (setTool (init 2 2) "rectangle") 0 0) 5 6).undoStack
        = (handleStart (setTool (init 2 2) "rectangle") 0 0).undoStack := by
  have h := start_while_active_restarts (handleStart (setTool (init 2 2) "rectangle") 0 0) 5 6 rfl
  exact ⟨(h.2.1 (by decide)).2 0 0 (by decide) (by decide) (by decide) (by decide), h.2.2.1⟩

/-- C7 counterexample: enlarging a freshly initialized (white-filled) 1 by 1
surface to 2 by 1 leaves the revealed margin pixel at (1, 0) transparent
black — not the white background color the engine fills with — because
assigning the canvas dimensions clears the bitmap before the captured content
is copied back.  The kept pixel at (0, 0) stays white. -/
theorem resize_margin_counterexample :
    (resize (init 1 1) 2 1).surface.pix 1 0 = transparentBlack ∧
    transparentBlack ≠ whiteFill ∧
    (init 1 1).surface.pix 0 0 = whiteFill ∧
    (resize (init 1 1) 2 1).surface.pix 0 0 = whiteFill := by
  refine ⟨rfl, by decide, rfl, rfl⟩

/-- C7 (amended): `resize(width, height)` sets both the surface and the
scratch buffer to the new dimensions and copies the prior pixel content back
at the origin at 1:1 scale, so shrinking crops; enlarging reveals transparent
black — the backend's cleared-bitmap state, not the background fill color —
at the new margins; afterwards the active stroke color and width are
reapplied to the rendering backend, and the layout-driven `_handleResize`
performs the same transformation. -/
theorem resize_copies_content (e : Engine) (w h : Nat) :
    (resize e w h).surface.width = w ∧
    (resize e w h).surface.height = h ∧
    (resize e w h).tempCanvas.width = w ∧
    (resize e w h).tempCanvas.height = h ∧
    (∀ x y, x < w → y < h →
      (resize e w h).surface.pix x y =
        if x < e.surface.width ∧ y < e.surface.height then e.surface.pix x y
        else transparentBlack) ∧
    (resize e w h).ctxStrokeStyle = e.currentColor ∧
    (resize e w h).ctxLineWidth = e.strokeWidth ∧
    handleResize e w h = resize e w h := by
  refine ⟨rfl, rfl, rfl, rfl, ?_, rfl, rfl, rfl⟩
  intro x y hx hy
  simp only [resize, applyContextSettings, putImageData, setCanvasSize, blank, getImageData]
  by_cases hx2 : x < e.surface.width <;> by_cases hy2 : y < e.surface.height <;>
    simp [hx, hy, hx2, hy2, transparentBlack]

/-- Witness for C7 (amended) at a concrete input: resizing the fresh 1 by 1
surface to 2 by 1 keeps the white pixel at the origin. -/
theorem resize_copies_content_witness :
    (resize (init 1 1) 2 1).surface.pix 0 0 = whiteFill := by
  have hpix := (resize_copies_content (init 1 1) 2 1).2.2.2.2.1 0 0 (by decide) (by decide)
  rw [hpix]
  decide

/-! ## Reachability invariants -/

/-- Invariant preservation lifts from one `step` to a whole run. -/
lemma run_preserves (R : Rasterizer) (P : Engine → Prop)
    (hstep : ∀ (e : Engine) (op : Op), P e → P (step R op e)) :
    ∀ (ops : List Op) (e : Engine), P e → P (run R ops e) := by
  intro ops
  induction ops with
  | nil => intro e h; exact h
  | cons o os ih => intro e h; exact ih (step R o e) (hstep e o h)

/-- Invariant preservation for runs that never call `destroy()`. -/
lemma live_run_preserves (R : Rasterizer) (P : Engine → Prop)
    (hstep : ∀ (e : Engine) (op : Op), op ≠ Op.destroyOp → P e → P (step R op e)) :
    ∀ (ops : List Op) (e : Engine), Op.destroyOp ∉ ops → P e → P (run R ops e) := by
  intro ops
  induction ops with
  | nil => intro e _ h; exact h
  | cons o os ih =>
    intro e hmem h
    have ho : o ≠ Op.destroyOp := by
      intro he
      exact hmem (he ▸ List.mem_cons_self o os)
    exact ih (step R o e) (fun hm => hmem (List.mem_cons_of_mem o hm)) (hstep e o ho h)

/-- Length of the undo stack after `_saveState`. -/
lemma saveState_length (e : Engine) :
    (saveState e).undoStack.length =
      if e.maxUndoSteps < e.undoStack.length + 1 then e.undoStack.length
      else e.undoStack.length + 1 := by
  unfold saveState
  simp only [List.length_append, List.length_cons, List.length_nil, Nat.zero_add]
  split <;> rename_i hc <;> simp [List.length_drop, hc]

/-- `_saveState` keeps the combined stack size within the bound. -/
lemma saveState_bound (e : Engine) (hm : e.maxUndoSteps = 50)
    (hs : e.undoStack.length + e.redoStack.length ≤ 50) :
    (saveState e).maxUndoSteps = 50 ∧
    (saveState e).undoStack.length + (saveState e).redoStack.length ≤ 50 := by
  refine ⟨hm, ?_⟩
  have hlen := saveState_length e
  have hred : (saveState e).redoStack.length = 0 := rfl
  rw [hred, hlen, hm]
  split <;> omega

/-- `_saveState` keeps the undo stack nonempty. -/
lemma saveState_floor (e : Engine) (h : 1 ≤ e.undoStack.length) :
    1 ≤ (saveState e).undoStack.length := by
  rw [saveState_length]
  split <;> omega

/-- A successful or failing `undo()` keeps the combined stack size and the
bound. -/
lemma undoStep_sum (e : Engine) :
    (undoStep e).undoStack.length + (undoStep e).redoStack.length
      = e.undoStack.length + e.redoStack.length ∧
    (undoStep e).maxUndoSteps = e.maxUndoSteps := by
  by_cases h : e.undoStack.length ≤ 1
  · rw [undoStep_of_le e h]; exact ⟨rfl, rfl⟩
  · rw [undoStep_of_lt e (by omega)]
    refine ⟨?_, rfl⟩
    simp only [List.length_dropLast, List.length_append, List.length_cons, List.length_nil]
    omega

/-- A successful or failing `redo()` keeps the combined stack size and the
bound. -/
lemma redoStep_sum (e : Engine) :
    (redoStep e).undoStack.length + (redoStep e).redoStack.length
      = e.undoStack.length + e.redoStack.length ∧
    (redoStep e).maxUndoSteps = e.maxUndoSteps := by
  by_cases h : e.redoStack.length = 0
  · rw [redoStep_of_empty e h]; exact ⟨rfl, rfl⟩
  · rw [redoStep_of_pos e (by omega)]
    refine ⟨?_, rfl⟩
    simp only [List.length_dropLast, List.length_append, List.length_cons, List.length_nil]
    omega

/-- Every public operation keeps the bound at 50 and the combined stack size
within it. -/
lemma step_bound (R : Rasterizer) (e : Engine) (op : Op)
    (h : e.maxUndoSteps = 50 ∧ e.undoStack.length + e.redoStack.length ≤ 50) :
    (step R op e).maxUndoSteps = 50 ∧
    (step R op e).undoStack.length + (step R op e).redoStack.length ≤ 50 := by
  obtain ⟨hmax, hsum⟩ := h
  cases op with
  | startEv x y =>
    have hf := handleStart_facts e x y
    exact ⟨hf.2.2.1.trans hmax, by rw [show (step R (Op.startEv x y) e) = handleStart e x y from rfl, hf.1, hf.2.1]; exact hsum⟩
  | moveEv x y =>
    have hf := handleMove_facts R e x y
    exact ⟨hf.2.2.1.trans hmax, by rw [show (step R (Op.moveEv x y) e) = handleMove R e x y from rfl, hf.1, hf.2.1]; exact hsum⟩
  | endEv x y =>
    simp only [step]
    unfold handleEnd
    split
    · exact ⟨hmax, hsum⟩
    · split
      · exact saveState_bound { e with isDrawing := false } hmax hsum
      · exact saveState_bound { drawShape R e x y with isDrawing := false }
          (by simp [drawShape, hmax]) (by simp [drawShape]; omega)
  | setToolOp tool =>
    simp only [step]
    unfold setTool
    split
    · exact ⟨hmax, hsum⟩
    · exact ⟨hmax, hsum⟩
  | setColorOp color => exact ⟨hmax, hsum⟩
  | setStrokeWidthOp width => exact ⟨hmax, hsum⟩
  | undoOp =>
    have hf := undoStep_sum e
    exact ⟨hf.2.trans hmax, by rw [show (step R Op.undoOp e) = undoStep e from rfl, hf.1]; exact hsum⟩
  | redoOp =>
    have hf := redoStep_sum e
    exact ⟨hf.2.trans hmax, by rw [show (step R Op.redoOp e) = redoStep e from rfl, hf.1]; exact hsum⟩
  | clearOp =>
    exact saveState_bound (applyContextSettings
      { e with surface := fillRect e.surface 0 0 e.surface.width e.surface.height whiteFill,
               ctxFillStyle := "#ffffff" })
      (by simp [applyContextSettings, hmax]) (by simp [applyContextSettings]; omega)
  | resizeOp w h => exact ⟨hmax, hsum⟩
  | exportOp => exact ⟨hmax, hsum⟩
  | destroyOp => exact ⟨hmax, by simp [step, destroy]⟩

/-- Every reachable state has bound 50 and combined stack size within it. -/
lemma reachable_inv (R : Rasterizer) (e : Engine) (hr : Reachable R e) :
    e.maxUndoSteps = 50 ∧ e.undoStack.length + e.redoStack.length ≤ 50 := by
  obtain ⟨w, h, ops, rfl⟩ := hr
  refine run_preserves R _ (step_bound R) ops (init w h) ⟨rfl, ?_⟩
  have h1 : (init w h).undoStack.length = 1 := rfl
  have h2 : (init w h).redoStack.length = 0 := rfl
  omega

/-- C2: in every reachable engine state the undo stack length never exceeds
the configured maximum (`maxUndoSteps`, always 50, its default); since
reachability is closed under the public operations, no public operation can
push it past the bound, and whenever a commit through `_saveState` would
exceed the bound the oldest snapshot — the front of the stack — is evicted
first. -/
theorem history_bound (R : Rasterizer) (e : Engine) (hr : Reachable R e) :
    e.maxUndoSteps = 50 ∧
    e.undoStack.length ≤ 50 ∧
    (50 ≤ e.undoStack.length →
      (saveState e).undoStack = (e.undoStack ++ [getImageData e.surface]).drop 1) := by
  obtain ⟨hmax, hsum⟩ := reachable_inv R e hr
  refine ⟨hmax, by omega, fun hlen => ?_⟩
  show (if e.maxUndoSteps < (e.undoStack ++ [getImageData e.surface]).length
        then (e.undoStack ++ [getImageData e.surface]).drop 1
        else e.undoStack ++ [getImageData e.surface])
      = (e.undoStack ++ [getImageData e.surface]).drop 1
  rw [if_pos (by simp only [List.length_append, List.length_cons, List.length_nil]; omega)]

/-- Witness for C2 at a concrete state: the freshly initialized 7 by 5
surface respects the bound. -/
theorem history_bound_witness : (init 7 5).undoStack.length ≤ 50 :=
  (history_bound idRaster (init 7 5) ⟨7, 5, [], rfl⟩).2.1

/-- Every public operation except `destroy()` keeps the undo stack
nonempty. -/
lemma step_floor (R : Rasterizer) (e : Engine) (op : Op) (hop : op ≠ Op.destroyOp)
    (h : 1 ≤ e.undoStack.length) : 1 ≤ (step R op e).undoStack.length := by
  cases op with
  | startEv x y => rw [show (step R (Op.startEv x y) e) = handleStart e x y from rfl,
      (handleStart_facts e x y).1]; exact h
  | moveEv x y => rw [show (step R (Op.moveEv x y) e) = handleMove R e x y from rfl,
      (handleMove_facts R e x y).1]; exact h
  | endEv x y =>
    show 1 ≤ (handleEnd R e x y).undoStack.length
    unfold handleEnd
    split
    · exact h
    · split
      · exact saveState_floor { e with isDrawing := false } h
      · exact saveState_floor { drawShape R e x y with isDrawing := false }
          (by simp [drawShape]; omega)
  | setToolOp tool =>
    show 1 ≤ (setTool e tool).undoStack.length
    unfold setTool
    split
    · exact h
    · exact h
  | setColorOp color => exact h
  | setStrokeWidthOp width => exact h
  | undoOp =>
    show 1 ≤ (undoStep e).undoStack.length
    by_cases h2 : e.undoStack.length ≤ 1
    · rw [undoStep_of_le e h2]; exact h
    · rw [undoStep_of_lt e (by omega)]
      simp only [List.length_dropLast]
      omega
  | redoOp =>
    show 1 ≤ (redoStep e).undoStack.length
    by_cases h2 : e.redoStack.length = 0
    · rw [redoStep_of_empty e h2]; exact h
    · rw [redoStep_of_pos e (by omega)]
      simp only [List.length_append, List.length_cons, List.length_nil]
      omega
  | clearOp =>
    exact saveState_floor (applyContextSettings
      { e with surface := fillRect e.surface 0 0 e.surface.width e.surface.height whiteFill,
               ctxFillStyle := "#ffffff" })
      (by simp [applyContextSettings]; omega)
  | resizeOp w h2 => exact h
  | exportOp => exact h
  | destroyOp => exact absurd rfl hop

/-- C8 (amended): until teardown — in every state reachable without a
`destroy()` call — the undo stack contains at least one entry; `destroy()`
itself discards both history stacks, and the bottom entry need not remain
the initial blank-canvas snapshot, since the history bound evicts the oldest
snapshots first (see the counterexample). -/
theorem undo_stack_floor_until_destroy (R : Rasterizer) (e : Engine)
    (hr : LiveReachable R e) :
    1 ≤ e.undoStack.length ∧
    ∀ e2 : Engine, (destroy e2).undoStack = [] ∧ (destroy e2).redoStack = [] := by
  obtain ⟨w, h, ops, hmem, rfl⟩ := hr
  refine ⟨live_run_preserves R (fun s => 1 ≤ s.undoStack.length)
    (fun s op hop hs => step_floor R s op hop hs) ops (init w h) hmem ?_,
    fun e2 => ⟨rfl, rfl⟩⟩
  have h1 : (init w h).undoStack.length = 1 := rfl
  omega

/-- Witness for C8 (amended) at a concrete state: the freshly initialized
3 by 2 surface, reachable with no teardown, has a nonempty undo stack. -/
theorem undo_stack_floor_until_destroy_witness : 1 ≤ (init 3 2).undoStack.length :=
  (undo_stack_floor_until_destroy idRaster (init 3 2) ⟨3, 2, [], by simp, rfl⟩).1

/-- No `destroy()` occurs among rectangle-gesture events. -/
lemma destroyOp_not_mem_rectGestures : ∀ n : Nat, Op.destroyOp ∉ rectGestures n := by
  intro n
  induction n with
  | zero => simp [rectGestures]
  | succ n ih => simp [rectGestures, ih]

set_option maxRecDepth 40000 in
/-- C8 counterexample: on a 1 by 1 surface, after `setTool('rectangle')` and
fifty committed rectangle gestures under a backend whose strokes paint
black, the bottom entry of the undo stack is an opaque black snapshot while
the initial snapshot pushed at initialization was the white blank canvas:
the oldest-first eviction has removed the initial snapshot with no teardown
involved, refuting the claim that the bottom entry stays the initial
blank-canvas snapshot for the lifetime of the surface. -/
theorem undo_bottom_not_initial :
    ((run blackRaster (Op.setToolOp "rectangle" :: rectGestures 50) (init 1 1)).undoStack.head?.map
        (fun i => i.pix 0 0)) = some (0, 0, 0, 255) ∧
    ((init 1 1).undoStack.head?.map (fun i => i.pix 0 0)) = some whiteFill ∧
    Op.destroyOp ∉ (Op.setToolOp "rectangle" :: rectGestures 50) := by
  refine ⟨rfl, rfl, ?_⟩
  intro hmem
  rcases List.mem_cons.mp hmem with h | h
  · cases h
  · exact destroyOp_not_mem_rectGestures 50 h

/-! ## Iterated undo and redo -/

/-- Head of an append with a nonempty left part. -/
lemma head?_append_left (A B : List Img) (h : A ≠ []) : (A ++ B).head? = A.head? := by
  cases A with
  | nil => exact absurd rfl h
  | cons a l => rfl

/-- The last element survives dropping fewer elements than the length. -/
lemma getLast?_drop_of_lt :
    ∀ (l : List Img) (d : Nat), d < l.length → (l.drop d).getLast? = l.getLast? := by
  intro l
  induction l with
  | nil => intro d h; simp at h
  | cons a l ih =>
    intro d h
    cases d with
    | zero => rfl
    | succ d =>
      simp only [List.drop_succ_cons]
      rw [ih d (by simpa using h)]
      cases l with
      | nil => simp at h
      | cons b l2 => exact List.getLast?_cons_cons.symm

/-- Projections of a successful `undo()`. -/
lemma undoStep_proj (e : Engine) (h : 1 < e.undoStack.length) :
    (undoStep e).undoStack = e.undoStack.dropLast ∧
    (undoStep e).redoStack = e.redoStack ++ [e.undoStack.getLast?.getD e.surface] ∧
    (undoStep e).surface.width = e.surface.width ∧
    (undoStep e).surface.height = e.surface.height := by
  rw [undoStep_of_lt e h]
  exact ⟨rfl, rfl, rfl, rfl⟩

/-- Projections of a successful `redo()`. -/
lemma redoStep_proj (e : Engine) (h : 0 < e.redoStack.length) :
    (redoStep e).undoStack = e.undoStack ++ [e.redoStack.getLast?.getD e.surface] ∧
    (redoStep e).redoStack = e.redoStack.dropLast ∧
    (redoStep e).surface = putImageData e.surface (e.redoStack.getLast?.getD e.surface) := by
  rw [redoStep_of_pos e h]
  exact ⟨rfl, rfl, rfl⟩

/-- Effect of iterating `undo()` on a nonempty undo stack: `n` undos move
min(n, length - 1) snapshots from the top of the undo stack onto the redo
stack, keep the surface dimensions, and do nothing at all once the floor is
reached. -/
lemma undoStep_iterate :
    ∀ (n : Nat) (e : Engine), 1 ≤ e.undoStack.length →
      (undoStep^[n] e).undoStack
          = e.undoStack.take (e.undoStack.length - min n (e.undoStack.length - 1)) ∧
      (undoStep^[n] e).redoStack
          = e.redoStack ++
            (e.undoStack.drop (e.undoStack.length - min n (e.undoStack.length - 1))).reverse ∧
      (undoStep^[n] e).surface.width = e.surface.width ∧
      (undoStep^[n] e).surface.height = e.surface.height ∧
      (min n (e.undoStack.length - 1) = 0 → undoStep^[n] e = e) := by
  intro n
  induction n with
  | zero =>
    intro e hL
    refine ⟨by simp [List.take_length], by simp [List.drop_length], rfl, rfl, fun _ => rfl⟩
  | succ n ih =>
    intro e hL
    rw [Function.iterate_succ_apply]
    by_cases h1 : e.undoStack.length ≤ 1
    · rw [undoStep_of_le e h1]
      obtain ⟨ha, hb, hc, hd2, hfix⟩ := ih e hL
      have hmin : min n (e.undoStack.length - 1) = 0 := by omega
      have hmin2 : min (n + 1) (e.undoStack.length - 1) = 0 := by omega
      rw [hmin] at ha hb
      rw [hmin2]
      exact ⟨ha, hb, hc, hd2, fun _ => hfix hmin⟩
    · push_neg at h1
      obtain ⟨hpu, hpr, hpw, hph⟩ := undoStep_proj e h1
      have hL2 : 1 ≤ (undoStep e).undoStack.length := by
        rw [hpu, List.length_dropLast]; omega
      obtain ⟨ha, hb, hc, hd2, _⟩ := ih (undoStep e) hL2
      rw [hpu] at ha hb
      rw [hpr] at hb
      rw [List.length_dropLast] at ha hb
      have hu : e.undoStack ≠ [] := by
        intro h0
        rw [h0] at h1
        simp at h1
      have hg : e.undoStack.getLast? = some (e.undoStack.getLast hu) :=
        List.getLast?_eq_getLast _ hu
      set dd := e.undoStack.length - 1 - min n (e.undoStack.length - 1 - 1) with hdd
      have hdle : dd ≤ e.undoStack.dropLast.length := by
        rw [List.length_dropLast]; omega
      have hdrop : e.undoStack.drop dd
          = e.undoStack.dropLast.drop dd ++ [e.undoStack.getLast hu] := by
        conv_lhs => rw [← List.dropLast_append_getLast hu]
        rw [List.drop_append_of_le_length hdle]
      refine ⟨?_, ?_, hc.trans hpw, hd2.trans hph, ?_⟩
      · rw [ha, List.dropLast_eq_take, List.take_take, min_eq_left (by omega)]
        rw [show e.undoStack.length - min (n + 1) (e.undoStack.length - 1) = dd from by omega]
      · rw [hb]
        rw [show e.undoStack.length - min (n + 1) (e.undoStack.length - 1) = dd from by omega]
        rw [hdrop, List.reverse_append, List.reverse_singleton]
        simp [hg, List.append_assoc]
      · intro habs
        exact absurd habs (by omega)

/-- Effect of iterating `redo()`: `m` redos move min(m, length) snapshots
from the top of the redo stack back onto the undo stack, do nothing once the
redo stack is exhausted, and when at least one redo succeeded the final
surface is the last-restored snapshot written over a bitmap of the original
dimensions. -/
lemma redoStep_iterate :
    ∀ (m : Nat) (e : Engine),
      (redoStep^[m] e).undoStack
          = e.undoStack ++
            (e.redoStack.drop (e.redoStack.length - min m e.redoStack.length)).reverse ∧
      (redoStep^[m] e).redoStack
          = e.redoStack.take (e.redoStack.length - min m e.redoStack.length) ∧
      (min m e.redoStack.length = 0 → redoStep^[m] e = e) ∧
      (1 ≤ min m e.redoStack.length →
        ∃ s t, s.width = e.surface.width ∧ s.height = e.surface.height ∧
          (e.redoStack.drop (e.redoStack.length - min m e.redoStack.length)).head? = some t ∧
          (redoStep^[m] e).surface = putImageData s t) := by
  intro m
  induction m with
  | zero =>
    intro e
    refine ⟨by simp [List.drop_length], by simp [List.take_length], fun _ => rfl,
      fun habs => absurd habs (by omega)⟩
  | succ m ih =>
    intro e
    rw [Function.iterate_succ_apply]
    by_cases h0 : e.redoStack.length = 0
    · rw [redoStep_of_empty e h0]
      obtain ⟨ha, hb, hfix, _⟩ := ih e
      have hmin : min m e.redoStack.length = 0 := by omega
      have hmin2 : min (m + 1) e.redoStack.length = 0 := by omega
      rw [hmin] at ha hb
      rw [hmin2]
      exact ⟨ha, hb, fun _ => hfix hmin, fun habs => absurd habs (by omega)⟩
    · have hpos : 0 < e.redoStack.length := by omega
      obtain ⟨hpu, hpr, hps⟩ := redoStep_proj e hpos
      obtain ⟨ha, hb, hfix, hsur⟩ := ih (redoStep e)
      rw [hpu, hpr] at ha
      rw [hpr] at hb
      rw [List.length_dropLast] at ha hb
      have hu : e.redoStack ≠ [] := List.length_pos.mp hpos
      have hg : e.redoStack.getLast? = some (e.redoStack.getLast hu) :=
        List.getLast?_eq_getLast _ hu
      set d := e.redoStack.length - 1 - min m (e.redoStack.length - 1) with hd
      have hdle : d ≤ e.redoStack.dropLast.length := by
        rw [List.length_dropLast]; omega
      have hdrop : e.redoStack.drop d
          = e.redoStack.dropLast.drop d ++ [e.redoStack.getLast hu] := by
        conv_lhs => rw [← List.dropLast_append_getLast hu]
        rw [List.drop_append_of_le_length hdle]
      refine ⟨?_, ?_, ?_, ?_⟩
      · rw [ha]
        rw [show e.redoStack.length - min (m + 1) e.redoStack.length = d from by omega]
        rw [hdrop, List.reverse_append, List.reverse_singleton]
        simp [hg, List.append_assoc]
      · rw [hb]
        rw [show e.redoStack.length - min (m + 1) e.redoStack.length = d from by omega]
        rw [List.dropLast_eq_take, List.take_take, min_eq_left (by omega)]
      · intro habs
        exact absurd habs (by omega)
      · intro _
        by_cases hj : 1 ≤ min m ((redoStep e).redoStack.length)
        · obtain ⟨s, t2, hw2, hh2, hhead2, hs2⟩ := hsur hj
          have hj2 : 1 ≤ min m (e.redoStack.length - 1) := by
            rw [hpr, List.length_dropLast] at hj
            exact hj
          refine ⟨s, t2, ?_, ?_, ?_, hs2⟩
          · rw [hw2, hps]
            rfl
          · rw [hh2, hps]
            rfl
          · rw [hpr, List.length_dropLast, ← hd] at hhead2
            rw [show e.redoStack.length - min (m + 1) e.redoStack.length = d from by omega]
            rw [hdrop]
            rw [head?_append_left _ _ (List.length_pos.mp (by
              rw [List.length_drop, List.length_dropLast]; omega))]
            exact hhead2
        · push_neg at hj
          have hj0 : min m ((redoStep e).redoStack.length) = 0 := by omega
          have hfix2 := hfix hj0
          have hj0b : min m (e.redoStack.length - 1) = 0 := by
            rw [hpr, List.length_dropLast] at hj0
            exact hj0
          refine ⟨e.surface, e.redoStack.getLast hu, rfl, rfl, ?_, ?_⟩
          · rw [show e.redoStack.length - min (m + 1) e.redoStack.length = d from by omega]
            rw [hdrop]
            rw [show e.redoStack.dropLast.drop d = [] from by
              rw [show d = e.redoStack.dropLast.length from by rw [List.length_dropLast]; omega]
              exact List.drop_length _]
            rfl
          · rw [hfix2, hps, hg]
            simp

/-- After a nonempty sequence of committed actions the redo stack is empty,
the undo stack is nonempty, and its top is the snapshot of the current
surface. -/
lemma commitAll_facts (R : Rasterizer) :
    ∀ (acts : List CommittedAction) (e : Engine), acts ≠ [] → 1 ≤ e.maxUndoSteps →
      (commitAll R acts e).redoStack = [] ∧
      1 ≤ (commitAll R acts e).undoStack.length ∧
      (commitAll R acts e).undoStack.getLast?
        = some (getImageData (commitAll R acts e).surface) := by
  intro acts
  induction acts with
  | nil => intro e h _; exact absurd rfl h
  | cons a as ih =>
    intro e _ hm
    cases as with
    | nil =>
      have hf := runCommitted_facts R e a hm
      exact ⟨hf.1, hf.2.1, hf.2.2.1⟩
    | cons b bs =>
      have hm2 : 1 ≤ (runCommitted R e a).maxUndoSteps := by
        rw [(runCommitted_facts R e a hm).2.2.2]
        exact hm
      exact ih (runCommitted R e a) (by simp) hm2

/-- C1: from any reachable engine state, after any nonempty sequence of N
committed actions (each a full gesture ended by `_handleEnd` or a `clear()`),
calling `undo()` N times and then `redo()` N times returns the surface pixel
buffer, pixel for pixel, to the state it had immediately after the Nth
committed action — including when the history bound made some of the undos
fail at the floor and the matching redos fail on the exhausted redo stack. -/
theorem undo_redo_symmetry (R : Rasterizer) (e : Engine) (hr : Reachable R e)
    (acts : List CommittedAction) (hacts : acts ≠ []) :
    Img.samePixels
      ((redoStep^[acts.length]) ((undoStep^[acts.length]) (commitAll R acts e))).surface
      (commitAll R acts e).surface := by
  have hm : 1 ≤ e.maxUndoSteps := by
    rw [(reachable_inv R e hr).1]
    omega
  obtain ⟨hredo, hLen, hLast⟩ := commitAll_facts R acts e hacts hm
  set E := commitAll R acts e with hE
  set N := acts.length with hN
  obtain ⟨ha, hb, hw, hh, hfix⟩ := undoStep_iterate N E hLen
  set k := min N (E.undoStack.length - 1) with hk
  have hblen : (undoStep^[N] E).redoStack.length = k := by
    rw [hb, hredo]
    simp only [List.nil_append, List.length_reverse, List.length_drop]
    omega
  obtain ⟨ra, rb, rfix, rsur⟩ := redoStep_iterate N (undoStep^[N] E)
  by_cases hk0 : k = 0
  · have h1 : undoStep^[N] E = E := hfix hk0
    have h2 : redoStep^[N] (undoStep^[N] E) = undoStep^[N] E := by
      apply rfix
      rw [hblen, hk0]
      simp
    rw [h2, h1]
    exact ⟨rfl, rfl, fun x y _ _ => rfl⟩
  · have hk1 : 1 ≤ k := by omega
    obtain ⟨s, t, hsw, hsh, hhead, hsurf⟩ := rsur (by rw [hblen]; omega)
    have hidx : (undoStep^[N] E).redoStack.length
        - min N (undoStep^[N] E).redoStack.length = 0 := by
      rw [hblen]
      omega
    rw [hidx, List.drop_zero] at hhead
    have hget : t = getImageData E.surface := by
      rw [hb, hredo, List.nil_append, List.head?_reverse] at hhead
      rw [getLast?_drop_of_lt _ _ (by omega), hLast] at hhead
      exact (Option.some_inj.mp hhead).symm
    rw [hsurf]
    have hxw : (putImageData s t).width = E.surface.width := by
      show s.width = E.surface.width
      rw [hsw, hw]
    have hxh : (putImageData s t).height = E.surface.height := by
      show s.height = E.surface.height
      rw [hsh, hh]
    refine ⟨hxw, hxh, ?_⟩
    intro x y hx hy
    have hxw2 : x < E.surface.width := by rw [← hxw]; exact hx
    have hyh2 : y < E.surface.height := by rw [← hxh]; exact hy
    have hsx : x < s.width := hx
    have hsy : y < s.height := hy
    show (putImageData s t).pix x y = E.surface.pix x y
    rw [hget]
    simp only [putImageData, getImageData]
    simp [hxw2, hyh2, hsx, hsy]

/-- Witness for C1 at a concrete input: one `clear()` on the fresh 1 by 1
surface, one undo, one redo. -/
theorem undo_redo_symmetry_witness :
    Img.samePixels
      ((redoStep^[1]) ((undoStep^[1])
        (commitAll idRaster [CommittedAction.clearAction] (init 1 1)))).surface
      (commitAll idRaster [CommittedAction.clearAction] (init 1 1)).surface :=
  undo_redo_symmetry idRaster (init 1 1) ⟨1, 1, [], rfl⟩ [CommittedAction.clearAction] (by simp)
